import Mathlib

set_option maxHeartbeats 1000000
set_option maxRecDepth 100000

/-!
Shallow embedding of the `github_plugin` repository's
`GithubToCloudStorageOperator`
(`src/operators/github_to_cloud_storage_operator.py`).

Records coming back from the GitHub API are JSON objects; Python `dict`s
are modelled as ordered association lists with unique keys (Python dicts
preserve insertion order).  Python exceptions are modelled as
`Except Unit`; the unbounded `while` loop of `paginate_data` is modelled
with explicit fuel, `Option.none` standing for running out of fuel
(i.e. the model could not show termination within the given bound).
Logging side effects are not modelled.
-/

/-- A JSON value, as produced by the GitHub API and manipulated by the
operator. Objects keep the field order of the underlying Python dict. -/
inductive JSON where
  | null
  | bool (b : Bool)
  | num (n : Int)
  | str (s : String)
  | arr (elems : List JSON)
  | obj (fields : List (String × JSON))

/-- A record: a Python dict from field name to JSON value, in insertion
order. -/
abbrev Record := List (String × JSON)

/-- Python `key in record.keys()`. -/
def hasKey (r : Record) (k : String) : Bool :=
  r.any (fun p => p.1 == k)

/-- Python `record[k]`, as an `Option` (first matching key). -/
def dictGet (r : Record) (k : String) : Option JSON :=
  r.lookup k

/-- Python `record[k] = v`: replace the value in place if the key exists
(keeping its position), otherwise append the new key at the end. -/
def dictSet (r : Record) (k : String) (v : JSON) : Record :=
  if hasKey r k then r.map (fun p => bif p.1 == k then (k, v) else p)
  else r ++ [(k, v)]

/-- Python `del record[k]`. -/
def dictDel (r : Record) (k : String) : Record :=
  r.filter (fun p => p.1 != k)

/-- One entry of the static rule table inside `filterMapper`
(keys `name` / `filtered` / `retained` as in the source). -/
structure FilterRule where
  name : String
  filtered : String
  retained : Option (List String)

/-- The static `mapping` list defined inside `filterMapper`. -/
def filterMapping : List FilterRule :=
  [⟨"commits", "author", some ["id"]⟩,
   ⟨"commits", "committer", some ["id"]⟩,
   ⟨"issues", "labels", none⟩,
   ⟨"issue_comments", "user", some ["id"]⟩,
   ⟨"commit_comments", "user", some ["id"]⟩,
   ⟨"repositories", "owner", some ["id"]⟩,
   ⟨"pull_requests", "assignee", some ["id"]⟩,
   ⟨"pull_requests", "milestone", some ["id"]⟩,
   ⟨"pull_requests", "head", some ["label"]⟩,
   ⟨"pull_requests", "base", some ["label"]⟩,
   ⟨"pull_requests", "user", some ["id"]⟩]

/-- Python truthiness of `entry['retained']` (`None` and `[]` are falsy). -/
def retainedTruthy : Option (List String) → Bool
  | some (_ :: _) => true
  | _ => false

/-- The inner `for retained_item in entry['retained']` loop of
`filterMapper.process`: for each retained item, when the filtered field's
value is not `None` and has the item among its keys, hoist it to a new
top-level key `{filtered}_{item}`.  Python raises (`AttributeError`) when
`.keys()` is taken on a non-dict value, and would raise `KeyError` were
the field missing; both are modelled as `.error ()`. -/
def hoistItems (record : Record) (filtered : String) :
    List String → Except Unit Record
  | [] => .ok record
  | item :: rest =>
    match dictGet record filtered with
    | some .null => hoistItems record filtered rest
    | some (.obj fields) =>
      if (fields.map Prod.fst).contains item then
        hoistItems
          (dictSet record (filtered ++ "_" ++ item)
            ((fields.lookup item).getD .null))
          filtered rest
      else hoistItems record filtered rest
    | some _ => .error ()
    | none => .error ()

/-- One iteration of the `for entry in mapping` loop of
`filterMapper.process`: if the rule's entity kind matches and the filtered
field is a key of the record, hoist the retained subfields (when any are
desired) and then delete the filtered field — but only when its value is
not `None`. -/
def processRule (github_object : String) (record : Record)
    (entry : FilterRule) : Except Unit Record :=
  if entry.name == github_object && hasKey record entry.filtered then
    match
      (if retainedTruthy entry.retained then
        hoistItems record entry.filtered (entry.retained.getD [])
      else .ok record) with
    | .error e => .error e
    | .ok r1 =>
      match dictGet r1 entry.filtered with
      | some .null => .ok r1
      | some _ => .ok (dictDel r1 entry.filtered)
      | none => .error ()
  else .ok record

/-- The `for entry in mapping` loop of `filterMapper.process`. -/
def processAux (github_object : String) (record : Record) :
    List FilterRule → Except Unit Record
  | [] => .ok record
  | e :: es =>
    match processRule github_object record e with
    | .error u => .error u
    | .ok r1 => processAux github_object r1 es

/-- `filterMapper`: strips known-redundant nested objects from a record
according to the static rule table, hoisting retained identifier
subfields first. -/
def filterMapper (github_object : String) (record : Record) :
    Except Unit Record :=
  processAux github_object record filterMapping

/-- A query-parameter mapping (`final_payload` / the caller's `payload`),
modelled like records: a Python dict in insertion order. -/
abbrev Payload := List (String × JSON)

/-- Building `final_payload` in `paginate_data`: start from
`{'per_page': 100, 'page': 1}` and merge every caller-supplied parameter
on top. -/
def buildPayload (payload : Payload) : Payload :=
  payload.foldl (fun acc p => dictSet acc p.1 p.2)
    [("per_page", JSON.num 100), ("page", JSON.num 1)]

/-- The `while len(response) == 100` loop of `paginate_data`.  `fp` is the
current `final_payload`, `response` the page most recently fetched, `acc`
the accumulated records and `reqs` the (ghost) list of payloads of the
requests issued so far, one entry per `g.run` call.  The fetch capability
returns `.error` on a transport or JSON-parse failure, which propagates.
`Option.none` means the fuel ran out before the loop terminated;
incrementing a non-numeric `page` value (Python `TypeError`) is
`some (.error ())`. -/
def paginateLoop (fetch : Payload → Except Unit (List Record)) :
    Nat → Payload → List Record → List Record → List Payload →
    Option (Except Unit (List Payload × List Record))
  | 0, _, _, _, _ => none
  | fuel + 1, fp, response, acc, reqs =>
    if response.length = 100 then
      match dictGet fp "page" with
      | some (.num k) =>
        let fp' := dictSet fp "page" (JSON.num (k + 1))
        match fetch fp' with
        | .error e => some (.error e)
        | .ok resp' =>
          paginateLoop fetch fuel fp' resp' (acc ++ resp') (reqs ++ [fp'])
      | _ => some (.error ())
    else some (.ok (reqs, acc))

/-- The closing list comprehension of `paginate_data`
(`[self.filterMapper(record) for record in output]`): apply the filter to
each record in order, propagating the first exception. -/
def mapFilter (github_object : String) :
    List Record → Except Unit (List Record)
  | [] => .ok []
  | r :: rs =>
    match filterMapper github_object r with
    | .error e => .error e
    | .ok fr =>
      match mapFilter github_object rs with
      | .error e => .error e
      | .ok frs => .ok (fr :: frs)

/-- `paginate_data`: build the payload, issue the first request, loop
while full pages keep coming, then pass every accumulated record through
`filterMapper`.  Returns the issued request payloads alongside the
records. -/
def paginate_data (github_object : String) (payload : Payload)
    (fetch : Payload → Except Unit (List Record)) (fuel : Nat) :
    Option (Except Unit (List Payload × List Record)) :=
  let fp := buildPayload payload
  match fetch fp with
  | .error e => some (.error e)
  | .ok response =>
    match paginateLoop fetch fuel fp response response [fp] with
    | none => none
    | some (.error e) => some (.error e)
    | some (.ok (reqs, out)) =>
      match mapFilter github_object out with
      | .error e => some (.error e)
      | .ok filtered => some (.ok (reqs, filtered))

/-- Python string interpolation of an optional value
(`format(None)` prints `"None"`). -/
def fmtOpt : Option String → String
  | some s => s
  | none => "None"

/-- The endpoint dict built inside `methodMapper`; `selfOrg` is
`self.github_org` (used by the `repositories` entry), `o` and `r` the
formatted `org` and `repo` arguments. -/
def methodMapping (selfOrg o r : String) : List (String × String) :=
  [("commits", "repos/" ++ o ++ "/" ++ r ++ "/commits"),
   ("commit_comments", "repos/" ++ o ++ "/" ++ r ++ "/comments"),
   ("issue_comments", "repos/" ++ o ++ "/" ++ r ++ "/issues/comments"),
   ("issues", "repos/" ++ o ++ "/" ++ r ++ "/issues"),
   ("members", "orgs/" ++ o ++ "/members"),
   ("organizations", "user/organizations"),
   ("pull_requests", "repos/" ++ o ++ "/" ++ r ++ "/pulls"),
   ("repositories", "orgs/" ++ selfOrg ++ "/repos")]

/-- `methodMapper`: map the desired object to the relevant endpoint.  The
dict lookup is case-sensitive; a key outside the table raises `KeyError`,
modelled as `none`. -/
def methodMapper (selfOrg : String) (github_object : String)
    (org repo : Option String) : Option String :=
  (methodMapping selfOrg (fmtOpt org) (fmtOpt repo)).lookup github_object

/-- `retrieve_data`: build the endpoint and paginate, wrapped in the
source's bare `try/except`, which converts any exception (including the
`KeyError` from `methodMapper` and transport errors) into the empty
result `''`.  `Option.none` still means the pagination fuel ran out. -/
def retrieve_data (github_object selfOrg : String) (repo : Option String)
    (payload : Payload) (fetch : String → Payload → Except Unit (List Record))
    (fuel : Nat) : Option (List Record) :=
  match methodMapper selfOrg github_object (some selfOrg) repo with
  | none => some []
  | some endpoint =>
    match paginate_data github_object payload (fetch endpoint) fuel with
    | none => none
    | some (.error _) => some []
    | some (.ok (_, out)) => some out

/-- `self.github_repo`: Python `None`, a single string (possibly
`"all"`), or a list of repository names. -/
inductive RepoSpec where
  | rnone
  | rstr (s : String)
  | rlist (names : List String)

/-- The per-repository loop of `execute`
(`for repo in repos: output.extend(self.retrieve_data(g, repo=repo))`). -/
def runRepos (github_object selfOrg : String) (payload : Payload)
    (fetch : String → Payload → Except Unit (List Record)) (fuel : Nat) :
    List String → Option (List Record)
  | [] => some []
  | n :: ns =>
    match retrieve_data github_object selfOrg (some n) payload fetch fuel with
    | none => none
    | some xs =>
      match runRepos github_object selfOrg payload fetch fuel ns with
      | none => none
      | some rest => some (xs ++ rest)

/-- Extract `repo['name']` from a (filtered) repository record.  Python
raises `KeyError` when the key is missing; the model additionally
restricts names to JSON strings (the GitHub API contract — Python would
`str()`-coerce other values when formatting the endpoint). -/
def repoName (rec : Record) : Option String :=
  match dictGet rec "name" with
  | some (.str s) => some s
  | _ => none

/-- The list comprehension `[repo['name'] for repo in ...]`. -/
def mapNames : List Record → Option (List String)
  | [] => some []
  | r :: rs =>
    match repoName r with
    | none => none
    | some n =>
      match mapNames rs with
      | none => none
      | some ns => some (n :: ns)

/-- The repo argument passed to `retrieve_data` in the `else` branch of
`execute` (`repo=self.github_repo`).  The three repository-insensitive
endpoints reached there never interpolate the repo into the path, so the
placeholder chosen for a list-valued repo is irrelevant. -/
def repoAsOpt : RepoSpec → Option String
  | .rnone => none
  | .rstr s => some s
  | .rlist _ => none

/-- `execute` up to (and excluding) `output_manager`: scope fan-out and
extraction.  `.error` is a Python exception aborting the run (only
possible on the `repository == "all"` preliminary listing, which is not
wrapped in a `try/except`); `.ok` carries the records that would be
serialized and uploaded. -/
def execute (github_object selfOrg : String) (grepo : RepoSpec)
    (payload : Payload)
    (fetch : String → Payload → Except Unit (List Record)) (fuel : Nat) :
    Option (Except Unit (List Record)) :=
  if (["members", "organizations", "repositories"].contains github_object) =
      false then
    match grepo with
    | .rstr s =>
      if s == "all" then
        match
          paginate_data github_object payload
            (fetch ((methodMapper selfOrg "repositories" none none).getD ""))
            fuel with
        | none => none
        | some (.error e) => some (.error e)
        | some (.ok (_, repoRecords)) =>
          match mapNames repoRecords with
          | none => some (.error ())
          | some names =>
            match runRepos github_object selfOrg payload fetch fuel names with
            | none => none
            | some out => some (.ok out)
      else
        match retrieve_data github_object selfOrg (some s) payload fetch fuel
          with
        | none => none
        | some out => some (.ok out)
    | .rlist names =>
      match runRepos github_object selfOrg payload fetch fuel names with
      | none => none
      | some out => some (.ok out)
    | .rnone =>
      match retrieve_data github_object selfOrg none payload fetch fuel with
      | none => none
      | some out => some (.ok out)
  else
    match retrieve_data github_object selfOrg (repoAsOpt grepo) payload fetch
        fuel with
    | none => none
    | some out => some (.ok out)

/-- The tuple of supported github objects checked in `__init__`. -/
def supportedObjects : List String :=
  ["commits", "commit_comments", "issue_comments", "issues", "members",
   "organizations", "pull_requests", "repositories"]

/-- The operator's constructor-set attributes. -/
structure GithubOperator where
  github_conn_id : String
  github_org : String
  github_repo : RepoSpec
  github_object : String
  payload : Payload
  destination : String
  dest_conn_id : String
  bucket : String
  key : String

/-- Python `str.lower()` applied character-wise (`Char.toLower` lowercases
exactly the ASCII range, which covers the strings at issue here). -/
def pyLower (s : String) : String :=
  ⟨s.data.map Char.toLower⟩

/-- `__init__`: store the attributes, then raise unless the lowercased
`github_object` is in the supported tuple.  No network capability is in
scope here, so a failed construction performs zero fetches. -/
def githubOperatorInit (github_conn_id github_org : String)
    (github_object : String) (dest_conn_id bucket key : String)
    (destination : String) (github_repo : RepoSpec) (payload : Payload) :
    Except Unit GithubOperator :=
  if supportedObjects.contains (pyLower github_object) then
    .ok ⟨github_conn_id, github_org, github_repo, github_object, payload,
      destination, dest_conn_id, bucket, key⟩
  else .error ()

/-! ### Dictionary lemmas -/

theorem hasKey_false_iff (r : Record) (k : String) :
    hasKey r k = false ↔ dictGet r k = none := by
  induction r with
  | nil => simp [hasKey, dictGet]
  | cons p rs ih =>
    obtain ⟨pk, pv⟩ := p
    by_cases h : pk = k
    · subst h
      simp [hasKey, dictGet, List.lookup]
    · have h1 : (pk == k) = false := beq_eq_false_iff_ne.mpr h
      have h2 : (k == pk) = false := beq_eq_false_iff_ne.mpr (Ne.symm h)
      simp only [hasKey, dictGet, List.any_cons, List.lookup, h1, h2,
        Bool.false_or] at ih ⊢
      exact ih

theorem hasKey_true_iff (r : Record) (k : String) :
    hasKey r k = true ↔ ∃ v, dictGet r k = some v := by
  rcases h : dictGet r k with _ | v
  · rw [← hasKey_false_iff] at h
    simp [h]
  · constructor
    · exact fun _ => ⟨v, rfl⟩
    · intro _
      by_contra hf
      rw [Bool.not_eq_true, hasKey_false_iff] at hf
      rw [hf] at h
      cases h

theorem lookup_map_set (r : Record) (k : String) (v : JSON)
    (h : hasKey r k = true) :
    (r.map (fun p => bif p.1 == k then (k, v) else p)).lookup k = some v := by
  induction r with
  | nil => simp [hasKey] at h
  | cons p rs ih =>
    obtain ⟨pk, pv⟩ := p
    by_cases hp : pk = k
    · subst hp
      simp [List.lookup]
    · have h1 : (pk == k) = false := beq_eq_false_iff_ne.mpr hp
      have h2 : (k == pk) = false := beq_eq_false_iff_ne.mpr (Ne.symm hp)
      have hrs : hasKey rs k = true := by
        simpa [hasKey, h1] using h
      simpa [List.lookup, h1, h2] using ih hrs

theorem lookup_append_single (r : Record) (k : String) (v : JSON)
    (h : hasKey r k = false) :
    (r ++ [(k, v)]).lookup k = some v := by
  induction r with
  | nil => simp [List.lookup]
  | cons p rs ih =>
    obtain ⟨pk, pv⟩ := p
    simp only [hasKey, List.any_cons, Bool.or_eq_false_iff] at h
    have h2 : (k == pk) = false := by
      rcases h with ⟨h1, _⟩
      simp only [beq_eq_false_iff_ne] at h1 ⊢
      exact Ne.symm h1
    simp only [List.cons_append, List.lookup, h2]
    exact ih (by simpa [hasKey] using h.2)

theorem dictGet_dictSet_self (r : Record) (k : String) (v : JSON) :
    dictGet (dictSet r k v) k = some v := by
  unfold dictSet
  by_cases h : hasKey r k
  · simp only [h, if_true]
    exact lookup_map_set r k v h
  · simp only [h, if_false]
    exact lookup_append_single r k v (by simpa using h)

theorem lookup_map_set_ne (r : Record) (k k' : String) (v : JSON)
    (hne : k ≠ k') :
    (r.map (fun p => bif p.1 == k' then (k', v) else p)).lookup k
      = r.lookup k := by
  induction r with
  | nil => simp
  | cons p rs ih =>
    obtain ⟨pk, pv⟩ := p
    by_cases hp : pk = k'
    · subst hp
      have h2 : (k == pk) = false := beq_eq_false_iff_ne.mpr hne
      simp [List.lookup, h2, ih]
    · have h1 : (pk == k') = false := beq_eq_false_iff_ne.mpr hp
      simp only [List.map_cons, h1, Bool.cond_false, List.lookup]
      cases hkp : (k == pk) with
      | true => rfl
      | false => exact ih

theorem lookup_append_single_ne (r : Record) (k k' : String) (v : JSON)
    (hne : k ≠ k') :
    (r ++ [(k', v)]).lookup k = r.lookup k := by
  induction r with
  | nil =>
    have h2 : (k == k') = false := beq_eq_false_iff_ne.mpr hne
    simp [List.lookup, h2]
  | cons p rs ih =>
    obtain ⟨pk, pv⟩ := p
    simp only [List.cons_append, List.lookup]
    cases hkp : (k == pk) with
    | true => rfl
    | false => exact ih

theorem dictGet_dictSet_ne (r : Record) (k k' : String) (v : JSON)
    (hne : k ≠ k') : dictGet (dictSet r k' v) k = dictGet r k := by
  unfold dictSet
  by_cases h : hasKey r k'
  · simp only [h, if_true]
    exact lookup_map_set_ne r k k' v hne
  · simp only [h, if_false]
    exact lookup_append_single_ne r k k' v hne

theorem dictGet_dictDel_self (r : Record) (k : String) :
    dictGet (dictDel r k) k = none := by
  induction r with
  | nil => simp [dictDel, dictGet]
  | cons p rs ih =>
    obtain ⟨pk, pv⟩ := p
    by_cases hp : pk = k
    · subst hp
      simpa [dictDel] using ih
    · have h1 : (pk != k) = true := by simp [hp]
      have h2 : (k == pk) = false := beq_eq_false_iff_ne.mpr (Ne.symm hp)
      simp only [dictDel, List.filter_cons, h1, if_true] at ih ⊢
      simpa [dictGet, List.lookup, h2] using ih

theorem dictGet_dictDel_ne (r : Record) (k k' : String) (hne : k ≠ k') :
    dictGet (dictDel r k') k = dictGet r k := by
  induction r with
  | nil => simp [dictDel]
  | cons p rs ih =>
    obtain ⟨pk, pv⟩ := p
    by_cases hp : pk = k'
    · subst hp
      have h2 : (k == pk) = false := beq_eq_false_iff_ne.mpr hne
      simp only [dictDel, List.filter_cons, bne_self_eq_false, if_false,
        Bool.false_eq_true] at ih ⊢
      simpa [dictGet, List.lookup, h2] using ih
    · have h1 : (pk != k') = true := by simp [hp]
      simp only [dictDel, List.filter_cons, h1, if_true, dictGet,
        List.lookup] at ih ⊢
      cases hkp : (k == pk) with
      | true => rfl
      | false => exact ih

/-! ### Filter-and-retain lemmas -/

/-- No string equals itself extended with a hoisting suffix. -/
theorem ne_hoisted (f i : String) : f ≠ f ++ "_" ++ i := by
  intro h
  have hlen := congrArg String.length h
  rw [String.length_append, String.length_append] at hlen
  have h1 : ("_" : String).length = 1 := rfl
  rw [h1] at hlen
  omega

theorem hoist_get_other (f g : String) :
    ∀ (items : List String) (r r' : Record),
      hoistItems r f items = .ok r' →
      (∀ i ∈ items, g ≠ f ++ "_" ++ i) →
      dictGet r' g = dictGet r g := by
  intro items
  induction items with
  | nil =>
    intro r r' h _
    cases h
    rfl
  | cons item rest ih =>
    intro r r' h hg
    rw [hoistItems] at h
    cases hv : dictGet r f with
    | none =>
      simp only [hv] at h
      exact Except.noConfusion h
    | some v =>
      cases v with
      | null =>
        simp only [hv] at h
        exact ih r r' h (fun i hi => hg i (List.mem_cons_of_mem _ hi))
      | obj fields =>
        simp only [hv] at h
        by_cases hc : ((fields.map Prod.fst).contains item) = true
        · rw [if_pos hc] at h
          have hrec := ih _ r' h (fun i hi => hg i (List.mem_cons_of_mem _ hi))
          rw [hrec]
          exact dictGet_dictSet_ne r g (f ++ "_" ++ item) _
            (hg item (List.mem_cons_self _ _))
        · rw [if_neg hc] at h
          exact ih r r' h (fun i hi => hg i (List.mem_cons_of_mem _ hi))
      | bool b =>
        simp only [hv] at h
        exact Except.noConfusion h
      | num n =>
        simp only [hv] at h
        exact Except.noConfusion h
      | str s =>
        simp only [hv] at h
        exact Except.noConfusion h
      | arr xs =>
        simp only [hv] at h
        exact Except.noConfusion h

theorem hoist_get_self (f : String) (items : List String) (r r' : Record)
    (h : hoistItems r f items = .ok r') : dictGet r' f = dictGet r f :=
  hoist_get_other f f items r r' h (fun i _ => ne_hoisted f i)

theorem hoist_null_id (f : String) (items : List String) (r : Record)
    (h : dictGet r f = some JSON.null) :
    hoistItems r f items = .ok r := by
  induction items with
  | nil => rfl
  | cons item rest ih =>
    rw [hoistItems, h]
    exact ih

/-- After processing, a filtered field is either gone or was left in place
with a `None` value. -/
def absentOrNull (r : Record) (f : String) : Prop :=
  dictGet r f = some JSON.null ∨ dictGet r f = none

/-- The top-level keys a rule's hoisting step can write. -/
def hoistedNames (e : FilterRule) : List String :=
  (e.retained.getD []).map (fun i => e.filtered ++ "_" ++ i)

/-- The deletion step at the end of one rule application: the filtered
field ends up absent (deleted) or retained with a null value. -/
theorem delStep_absent (r1 r' : Record) (f : String)
    (h : (match dictGet r1 f with
          | some JSON.null => Except.ok r1
          | some _ => Except.ok (dictDel r1 f)
          | none => Except.error ()) = Except.ok r') :
    absentOrNull r' f := by
  cases hv : dictGet r1 f with
  | none =>
    simp only [hv] at h
    exact Except.noConfusion h
  | some v =>
    cases v with
    | null =>
      simp only [hv] at h
      injection h with h2
      subst h2
      exact Or.inl hv
    | bool b =>
      simp only [hv] at h
      injection h with h2
      subst h2
      exact Or.inr (dictGet_dictDel_self r1 f)
    | num n =>
      simp only [hv] at h
      injection h with h2
      subst h2
      exact Or.inr (dictGet_dictDel_self r1 f)
    | str s =>
      simp only [hv] at h
      injection h with h2
      subst h2
      exact Or.inr (dictGet_dictDel_self r1 f)
    | arr xs =>
      simp only [hv] at h
      injection h with h2
      subst h2
      exact Or.inr (dictGet_dictDel_self r1 f)
    | obj fs =>
      simp only [hv] at h
      injection h with h2
      subst h2
      exact Or.inr (dictGet_dictDel_self r1 f)

/-- The deletion step never changes the status of a key other than the
filtered field, and can only remove the filtered field itself. -/
theorem delStep_preserves (r1 r' : Record) (f g : String)
    (h : (match dictGet r1 f with
          | some JSON.null => Except.ok r1
          | some _ => Except.ok (dictDel r1 f)
          | none => Except.error ()) = Except.ok r')
    (habs : absentOrNull r1 g) : absentOrNull r' g := by
  by_cases hgf : g = f
  · subst hgf
    exact delStep_absent r1 r' g h
  · cases hv : dictGet r1 f with
    | none =>
      simp only [hv] at h
      exact Except.noConfusion h
    | some v =>
      have hdel : dictGet (dictDel r1 f) g = dictGet r1 g :=
        dictGet_dictDel_ne r1 g f hgf
      cases v with
      | null =>
        simp only [hv] at h
        injection h with h2
        subst h2
        exact habs
      | bool b =>
        simp only [hv] at h
        injection h with h2
        subst h2
        rcases habs with habs | habs
        · exact Or.inl (hdel.trans habs)
        · exact Or.inr (hdel.trans habs)
      | num n =>
        simp only [hv] at h
        injection h with h2
        subst h2
        rcases habs with habs | habs
        · exact Or.inl (hdel.trans habs)
        · exact Or.inr (hdel.trans habs)
      | str s =>
        simp only [hv] at h
        injection h with h2
        subst h2
        rcases habs with habs | habs
        · exact Or.inl (hdel.trans habs)
        · exact Or.inr (hdel.trans habs)
      | arr xs =>
        simp only [hv] at h
        injection h with h2
        subst h2
        rcases habs with habs | habs
        · exact Or.inl (hdel.trans habs)
        · exact Or.inr (hdel.trans habs)
      | obj fs =>
        simp only [hv] at h
        injection h with h2
        subst h2
        rcases habs with habs | habs
        · exact Or.inl (hdel.trans habs)
        · exact Or.inr (hdel.trans habs)

theorem processRule_self (gobj : String) (r r' : Record) (e : FilterRule)
    (h : processRule gobj r e = .ok r') (hname : e.name = gobj) :
    absentOrNull r' e.filtered := by
  unfold processRule at h
  cases hk : hasKey r e.filtered with
  | false =>
    rw [hname, hk] at h
    simp only [beq_self_eq_true, Bool.and_false, Bool.false_eq_true,
      if_false] at h
    cases h
    exact Or.inr ((hasKey_false_iff r e.filtered).mp hk)
  | true =>
    rw [hname, hk] at h
    simp only [beq_self_eq_true, Bool.and_true, if_true] at h
    cases hstep : (if retainedTruthy e.retained then
        hoistItems r e.filtered (e.retained.getD []) else Except.ok r) with
    | error u =>
      simp only [hstep] at h
      exact Except.noConfusion h
    | ok r1 =>
      simp only [hstep] at h
      exact delStep_absent r1 r' e.filtered h

theorem processRule_preserves (gobj : String) (r r' : Record)
    (e : FilterRule) (g : String) (h : processRule gobj r e = .ok r')
    (hg : g ∉ hoistedNames e) (habs : absentOrNull r g) :
    absentOrNull r' g := by
  unfold processRule at h
  cases hcond : (e.name == gobj && hasKey r e.filtered) with
  | false =>
    rw [hcond] at h
    simp only [Bool.false_eq_true, if_false] at h
    cases h
    exact habs
  | true =>
    rw [hcond] at h
    simp only [if_true] at h
    cases hstep : (if retainedTruthy e.retained then
        hoistItems r e.filtered (e.retained.getD []) else Except.ok r) with
    | error u =>
      simp only [hstep] at h
      exact Except.noConfusion h
    | ok r1 =>
      simp only [hstep] at h
      have hg1 : dictGet r1 g = dictGet r g := by
        by_cases hrt : retainedTruthy e.retained
        · rw [if_pos hrt] at hstep
          refine hoist_get_other e.filtered g _ r r1 hstep ?_
          intro i hi hgi
          exact hg (by
            rw [hoistedNames]
            exact List.mem_map.mpr ⟨i, hi, hgi.symm⟩)
        · rw [if_neg hrt] at hstep
          cases hstep
          rfl
      have habs1 : absentOrNull r1 g := by
        rcases habs with habs | habs
        · exact Or.inl (hg1.trans habs)
        · exact Or.inr (hg1.trans habs)
      exact delStep_preserves r1 r' e.filtered g h habs1

theorem processRule_id (gobj : String) (r : Record) (e : FilterRule)
    (habs : absentOrNull r e.filtered) :
    processRule gobj r e = .ok r := by
  unfold processRule
  rcases habs with habs | habs
  · have hk : hasKey r e.filtered = true :=
      (hasKey_true_iff r e.filtered).mpr ⟨_, habs⟩
    cases hng : (e.name == gobj) with
    | false => simp [hng]
    | true =>
      simp only [hng, hk, Bool.and_self, if_true]
      have hstep : (if retainedTruthy e.retained then
          hoistItems r e.filtered (e.retained.getD []) else Except.ok r)
          = Except.ok r := by
        by_cases hrt : retainedTruthy e.retained
        · rw [if_pos hrt]
          exact hoist_null_id e.filtered _ r habs
        · rw [if_neg hrt]
      simp only [hstep, habs]
  · have hk : hasKey r e.filtered = false :=
      (hasKey_false_iff r e.filtered).mpr habs
    simp [hk]

theorem processAux_preserves (gobj g : String) :
    ∀ (rules : List FilterRule) (r r' : Record),
      processAux gobj r rules = .ok r' →
      (∀ e ∈ rules, g ∉ hoistedNames e) →
      absentOrNull r g → absentOrNull r' g := by
  intro rules
  induction rules with
  | nil =>
    intro r r' h _ habs
    cases h
    exact habs
  | cons e0 rest ih =>
    intro r r' h hg habs
    rw [processAux] at h
    cases hstep : processRule gobj r e0 with
    | error u =>
      simp only [hstep] at h
      exact Except.noConfusion h
    | ok r1 =>
      simp only [hstep] at h
      exact ih r1 r' h (fun e he => hg e (List.mem_cons_of_mem _ he))
        (processRule_preserves gobj r r1 e0 g hstep
          (hg e0 (List.mem_cons_self _ _)) habs)

theorem processAux_establishes (gobj : String) :
    ∀ (rules : List FilterRule) (r r' : Record),
      processAux gobj r rules = .ok r' →
      (∀ e ∈ rules, ∀ e' ∈ rules, e.filtered ∉ hoistedNames e') →
      ∀ e ∈ rules, e.name = gobj → absentOrNull r' e.filtered := by
  intro rules
  induction rules with
  | nil =>
    intro r r' _ _ e he
    cases he
  | cons e0 rest ih =>
    intro r r' h hdisj e he hname
    rw [processAux] at h
    cases hstep : processRule gobj r e0 with
    | error u =>
      simp only [hstep] at h
      exact Except.noConfusion h
    | ok r1 =>
      simp only [hstep] at h
      rcases List.mem_cons.mp he with he0 | herest
      · subst he0
        exact processAux_preserves gobj e.filtered rest r1 r' h
          (fun e' he' =>
            hdisj e (List.mem_cons_self _ _) e' (List.mem_cons_of_mem _ he'))
          (processRule_self gobj r r1 e hstep hname)
      · exact ih r1 r' h
          (fun a ha a' ha' =>
            hdisj a (List.mem_cons_of_mem _ ha) a' (List.mem_cons_of_mem _ ha'))
          e herest hname

theorem processAux_id (gobj : String) :
    ∀ (rules : List FilterRule) (r : Record),
      (∀ e ∈ rules, e.name = gobj → absentOrNull r e.filtered) →
      processAux gobj r rules = .ok r := by
  intro rules
  induction rules with
  | nil => intro r _; rfl
  | cons e0 rest ih =>
    intro r hr
    rw [processAux]
    by_cases hname : e0.name = gobj
    · rw [processRule_id gobj r e0 (hr e0 (List.mem_cons_self _ _) hname)]
      exact ih r (fun e he => hr e (List.mem_cons_of_mem _ he))
    · have hstep : processRule gobj r e0 = .ok r := by
        unfold processRule
        have hng : (e0.name == gobj) = false := beq_eq_false_iff_ne.mpr hname
        simp [hng]
      rw [hstep]
      exact ih r (fun e he => hr e (List.mem_cons_of_mem _ he))

/-- In the static rule table, no filtered field name collides with any
hoisted key name. -/
theorem filterMapping_disjoint :
    ∀ e ∈ filterMapping, ∀ e' ∈ filterMapping,
      e.filtered ∉ hoistedNames e' := by decide

/-- C8: filter-and-retain is idempotent.  A successful pass of the filter
engine leaves every matching rule's filtered field absent or retained
with a null value, so a second pass is the identity: applying the filter
step twice yields the same record as applying it once. -/
theorem github_C8_filter_idempotent (gobj : String) (r r' : Record)
    (h : filterMapper gobj r = .ok r') : filterMapper gobj r' = .ok r' := by
  unfold filterMapper at h ⊢
  exact processAux_id gobj filterMapping r'
    (fun e he hname =>
      processAux_establishes gobj filterMapping r r' h
        filterMapping_disjoint e he hname)

/-! ### Pagination lemmas -/

/-- The `final_payload` dict as it stands when requesting page `k` of a
run started with an empty caller payload. -/
def mkReq (k : Nat) : Payload :=
  [("per_page", JSON.num 100), ("page", JSON.num (k : Int))]

/-- A fetch capability that serves a fixed page sequence `F` (1-indexed)
keyed on the `page` query parameter. -/
def pageFetch (F : Nat → List Record) (p : Payload) :
    Except Unit (List Record) :=
  match dictGet p "page" with
  | some (.num k) => .ok (F k.toNat)
  | _ => .ok []

theorem dictGet_mkReq_page (k : Nat) :
    dictGet (mkReq k) "page" = some (JSON.num (k : Int)) := rfl

theorem setPage_succ (j : Nat) :
    dictSet (mkReq j) "page" (JSON.num ((j : Int) + 1)) = mkReq (j + 1) := by
  have h : ((j : Int) + 1) = ((j + 1 : Nat) : Int) := by push_cast; ring
  rw [h]
  rfl

theorem pageFetch_mkReq (F : Nat → List Record) (k : Nat) :
    pageFetch F (mkReq k) = .ok (F k) := by
  show Except.ok (F ((k : Int)).toNat) = Except.ok (F k)
  rw [Int.toNat_natCast]

/-- Running the pagination loop from page `j` against a backend whose
pages `j..n-1` are full and whose page `n` is short: it issues exactly the
requests for pages `j+1..n` and accumulates those pages in order. -/
theorem paginateLoop_run (F : Nat → List Record) :
    ∀ (fuel j n : Nat) (acc : List Record) (reqs : List Payload),
      1 ≤ j → j ≤ n → n - j < fuel →
      (∀ k, j ≤ k → k < n → (F k).length = 100) →
      (F n).length < 100 →
      paginateLoop (pageFetch F) fuel (mkReq j) (F j) acc reqs
        = some (.ok (reqs ++ (List.range' (j + 1) (n - j)).map mkReq,
                     acc ++ (List.range' (j + 1) (n - j)).flatMap F)) := by
  intro fuel
  induction fuel with
  | zero =>
    intro j n acc reqs _ _ h3 _ _
    omega
  | succ fuel ih =>
    intro j n acc reqs h1 h2 h3 hfull hshort
    rw [paginateLoop]
    by_cases hj : j = n
    · subst hj
      have hne : ¬ ((F j).length = 100) := by omega
      rw [if_neg hne]
      simp
    · have hjn : j < n := lt_of_le_of_ne h2 hj
      have hlen : (F j).length = 100 := hfull j le_rfl hjn
      rw [if_pos hlen]
      simp only [dictGet_mkReq_page, setPage_succ, pageFetch_mkReq]
      obtain ⟨m, hm⟩ : ∃ m, n - j = m + 1 := ⟨n - j - 1, by omega⟩
      have hrec := ih (j + 1) n (acc ++ F (j + 1)) (reqs ++ [mkReq (j + 1)])
        (by omega) hjn (by omega)
        (fun k hk1 hk2 => hfull k (by omega) hk2) hshort
      rw [hrec, hm, List.range'_succ]
      have hm2 : n - (j + 1) = m := by omega
      rw [hm2]
      simp [List.append_assoc]

/-- Full run of `paginate_data` with an empty caller payload against a
backend whose pages `1..n-1` are full and whose page `n` is short. -/
theorem paginate_data_run (F : Nat → List Record) (gobj : String)
    (n fuel : Nat) (O : List Record)
    (h1 : 1 ≤ n)
    (hfull : ∀ k, 1 ≤ k → k < n → (F k).length = 100)
    (hshort : (F n).length < 100)
    (hfuel : n ≤ fuel)
    (hfilter : mapFilter gobj ((List.range' 1 n).flatMap F) = .ok O) :
    paginate_data gobj [] (pageFetch F) fuel
      = some (.ok ((List.range' 1 n).map mkReq, O)) := by
  obtain ⟨m, hm⟩ : ∃ m, n = m + 1 := ⟨n - 1, by omega⟩
  have hbp : buildPayload [] = mkReq 1 := rfl
  have hm1 : n - 1 = m := by omega
  have hr1 : List.range' 1 n = 1 :: List.range' 2 m := by
    rw [hm]
    exact List.range'_succ 1 m 1
  have hloop := paginateLoop_run F fuel 1 n (F 1) [mkReq 1] le_rfl h1
    (by omega) hfull hshort
  have hflat : mapFilter gobj (F 1 ++ (List.range' (1 + 1) (n - 1)).flatMap F)
      = .ok O := by
    have : F 1 ++ (List.range' (1 + 1) (n - 1)).flatMap F
        = (List.range' 1 n).flatMap F := by
      rw [hr1, List.flatMap_cons, hm1]
    rw [this]
    exact hfilter
  unfold paginate_data
  simp only [hbp, pageFetch_mkReq, hloop, hflat]
  rw [hr1, hm1]
  simp

/-- A plain commit-like record that no filter rule touches. -/
def exRec : Record := [("sha", JSON.num 1)]

/-- Page sequence for the 250-record example: 100 / 100 / 50. -/
def c2Pages (k : Nat) : List Record :=
  if k ≤ 2 then List.replicate 100 exRec
  else if k = 3 then List.replicate 50 exRec
  else []

/-- Page sequence for the 200-record example: 100 / 100 / 0. -/
def c3Pages (k : Nat) : List Record :=
  if k ≤ 2 then List.replicate 100 exRec else []

/-- C2: pagination requests pages 1, 2, … while each fetched page has
exactly 100 (= `per_page`) elements and stops at the first shorter page;
with pages `1..n-1` full and page `n` short it issues exactly the `n`
requests for pages 1..n and returns the pages' records in page order
(each passed through the filter step). -/
theorem github_C2_pagination_stops_on_short_page
    (F : Nat → List Record) (gobj : String) (n fuel : Nat) (O : List Record)
    (h1 : 1 ≤ n)
    (hfull : ∀ k, 1 ≤ k → k < n → (F k).length = 100)
    (hshort : (F n).length < 100)
    (hfuel : n ≤ fuel)
    (hfilter : mapFilter gobj ((List.range' 1 n).flatMap F) = .ok O) :
    paginate_data gobj [] (pageFetch F) fuel
      = some (.ok ((List.range' 1 n).map mkReq, O))
    ∧ ((List.range' 1 n).map mkReq).length = n := by
  exact ⟨paginate_data_run F gobj n fuel O h1 hfull hshort hfuel hfilter,
    by simp⟩

/-- Witness for C2: a backend with 250 records split 100/100/50 issues
exactly 3 requests (pages 1, 2, 3) and returns all 250 records in page
order. -/
theorem github_C2_witness :
    (paginate_data "commits" [] (pageFetch c2Pages) 3
      = some (.ok ((List.range' 1 3).map mkReq, List.replicate 250 exRec))
    ∧ ((List.range' 1 3).map mkReq).length = 3)
    ∧ (List.replicate 250 exRec).length = 250 := by
  refine ⟨github_C2_pagination_stops_on_short_page c2Pages "commits" 3 3
    (List.replicate 250 exRec) (by omega) ?_ ?_ (by omega) ?_, by simp⟩
  · intro k hk1 hk2
    interval_cases k <;> rfl
  · show (List.replicate 50 exRec).length < 100
    simp
  · rfl

/-- C3: when the total record count is a positive multiple of 100 (pages
`1..n` all full, page `n+1` empty), pagination issues one extra request
returning the empty page before terminating, so it makes
`count / 100 + 1` requests and still returns all records. -/
theorem github_C3_multiple_of_100_extra_request
    (F : Nat → List Record) (gobj : String) (n fuel : Nat) (O : List Record)
    (h1 : 1 ≤ n)
    (hfull : ∀ k, 1 ≤ k → k ≤ n → (F k).length = 100)
    (hempty : F (n + 1) = [])
    (hfuel : n + 1 ≤ fuel)
    (hfilter : mapFilter gobj ((List.range' 1 n).flatMap F) = .ok O) :
    paginate_data gobj [] (pageFetch F) fuel
      = some (.ok ((List.range' 1 (n + 1)).map mkReq, O))
    ∧ ((List.range' 1 (n + 1)).map mkReq).length
        = ((List.range' 1 n).flatMap F).length / 100 + 1 := by
  have hflat : (List.range' 1 (n + 1)).flatMap F
      = (List.range' 1 n).flatMap F := by
    rw [List.range'_concat, List.flatMap_append]
    simp [hempty, Nat.add_comm]
  have hrun := paginate_data_run F gobj (n + 1) fuel O (by omega)
    (fun k hk1 hk2 => hfull k hk1 (by omega))
    (by rw [hempty]; simp)
    hfuel
    (by rw [hflat]; exact hfilter)
  refine ⟨hrun, ?_⟩
  have hlen : ((List.range' 1 n).flatMap F).length = n * 100 := by
    rw [List.length_flatMap]
    have hc : (List.range' 1 n).map (List.length ∘ F)
        = (List.range' 1 n).map (fun _ => 100) := by
      refine List.map_congr_left ?_
      intro k hk
      rcases List.mem_range'_1.mp hk with ⟨hk1, hk2⟩
      exact hfull k hk1 (by omega)
    rw [hc]
    simp [List.map_const', List.sum_replicate, smul_eq_mul]
  rw [hlen]
  have : n * 100 / 100 = n := Nat.mul_div_cancel n (by norm_num)
  rw [this]
  simp

/-- Witness for C3: a backend with exactly 200 records split 100/100
issues 3 = 200/100 + 1 requests, the last returning an empty page, and
returns all 200 records. -/
theorem github_C3_witness :
    (paginate_data "commits" [] (pageFetch c3Pages) 3
      = some (.ok ((List.range' 1 3).map mkReq, List.replicate 200 exRec))
    ∧ ((List.range' 1 3).map mkReq).length
        = ((List.range' 1 2).flatMap c3Pages).length / 100 + 1)
    ∧ ((List.range' 1 2).flatMap c3Pages).length = 200 ∧ c3Pages 3 = [] := by
  refine ⟨github_C3_multiple_of_100_extra_request c3Pages "commits" 2 3
    (List.replicate 200 exRec) (by omega) ?_ rfl (by omega) ?_, by decide, rfl⟩
  · intro k hk1 hk2
    interval_cases k <;> rfl
  · rfl

/-- Witness for C8: filtering a commits record hoists `author_id` and
deletes `author`; filtering the result again is a no-op. -/
theorem github_C8_witness :
    filterMapper "commits" [("author_id", JSON.num 7)]
      = .ok [("author_id", JSON.num 7)] :=
  github_C8_filter_idempotent "commits"
    [("author", JSON.obj [("id", JSON.num 7)])]
    [("author_id", JSON.num 7)] rfl

/-- Counterexample to C1: the claim predicts that normalizing the commits
record strips the null-valued `committer` key, but the code deletes a
filtered field only when its value is not `None`, so `committer` survives
with its null value. -/
theorem github_C1_counterexample :
    filterMapper "commits"
        [("sha", JSON.str "abc"),
         ("author", JSON.obj [("id", JSON.num 7), ("name", JSON.str "x")]),
         ("committer", JSON.null)]
      = .ok [("sha", JSON.str "abc"), ("committer", JSON.null),
             ("author_id", JSON.num 7)]
    ∧ hasKey [("sha", JSON.str "abc"), ("committer", JSON.null),
             ("author_id", JSON.num 7)] "committer" = true :=
  ⟨rfl, rfl⟩

/-- C1 (amended): after the hoisting step the rule's `filtered_field` key
is deleted only when its value is non-null; a null value is left in
place.  Hence after a successful filter pass each matching rule's
filtered field is absent or null, and normalizing the example commits
record yields `author` removed, `author_id = 7`, no `committer_id`, and
`committer` retained with value null. -/
theorem github_C1_filtered_field_deleted_unless_null :
    (∀ (gobj : String) (r r' : Record), filterMapper gobj r = .ok r' →
      ∀ e ∈ filterMapping, e.name = gobj →
        dictGet r' e.filtered = some JSON.null
        ∨ dictGet r' e.filtered = none)
    ∧ filterMapper "commits"
        [("sha", JSON.str "abc"),
         ("author", JSON.obj [("id", JSON.num 7), ("name", JSON.str "x")]),
         ("committer", JSON.null)]
      = .ok [("sha", JSON.str "abc"), ("committer", JSON.null),
             ("author_id", JSON.num 7)] := by
  refine ⟨?_, rfl⟩
  intro gobj r r' h e he hname
  exact processAux_establishes gobj filterMapping r r' h
    filterMapping_disjoint e he hname

/-- Witness for C1 (amended), instantiated at the example record and the
`committer` rule: the null-valued `committer` field ends up null (left
branch), not deleted. -/
theorem github_C1_witness :
    dictGet [("sha", JSON.str "abc"), ("committer", JSON.null),
             ("author_id", JSON.num 7)] "committer" = some JSON.null
    ∨ dictGet [("sha", JSON.str "abc"), ("committer", JSON.null),
             ("author_id", JSON.num 7)] "committer" = none :=
  github_C1_filtered_field_deleted_unless_null.1 "commits"
    [("sha", JSON.str "abc"),
     ("author", JSON.obj [("id", JSON.num 7), ("name", JSON.str "x")]),
     ("committer", JSON.null)]
    [("sha", JSON.str "abc"), ("committer", JSON.null),
     ("author_id", JSON.num 7)]
    github_C1_filtered_field_deleted_unless_null.2
    ⟨"commits", "committer", some ["id"]⟩
    (List.mem_cons_of_mem _ (List.mem_cons_self _ _))
    rfl

/-! ### Request payload lemmas -/

theorem dictGet_foldl_dictSet (k : String) :
    ∀ (ps : Payload) (init : Payload), (∀ p ∈ ps, p.1 ≠ k) →
      dictGet (ps.foldl (fun acc p => dictSet acc p.1 p.2) init) k
        = dictGet init k := by
  intro ps
  induction ps with
  | nil => intro init _; rfl
  | cons p rest ih =>
    intro init hp
    rw [List.foldl_cons,
      ih (dictSet init p.1 p.2) (fun q hq => hp q (List.mem_cons_of_mem _ hq))]
    exact dictGet_dictSet_ne init k p.1 p.2
      (fun h => hp p (List.mem_cons_self _ _) h.symm)

theorem buildPayload_keys (payload : Payload) (k : String)
    (hp : hasKey payload k = false) :
    dictGet (buildPayload payload) k
      = dictGet [("per_page", JSON.num 100), ("page", JSON.num 1)] k := by
  refine dictGet_foldl_dictSet k payload _ ?_
  intro p hpmem
  have := (List.any_eq_false.mp hp) p hpmem
  simpa using this

theorem buildPayload_page (payload : Payload)
    (hp : hasKey payload "page" = false) :
    dictGet (buildPayload payload) "page" = some (JSON.num 1) :=
  buildPayload_keys payload "page" hp

theorem buildPayload_per_page (payload : Payload)
    (hp : hasKey payload "per_page" = false) :
    dictGet (buildPayload payload) "per_page" = some (JSON.num 100) :=
  buildPayload_keys payload "per_page" hp

theorem hasKey_dictSet_self (r : Record) (k : String) (v : JSON) :
    hasKey (dictSet r k v) k = true :=
  (hasKey_true_iff _ k).mpr ⟨v, dictGet_dictSet_self r k v⟩

theorem map_set_of_no_key (r : Record) (k : String) (v : JSON)
    (h : hasKey r k = false) :
    r.map (fun p => bif p.1 == k then (k, v) else p) = r := by
  induction r with
  | nil => rfl
  | cons p rs ih =>
    simp only [hasKey, List.any_cons, Bool.or_eq_false_iff] at h
    rw [List.map_cons, h.1, ih (by simpa [hasKey] using h.2)]
    rfl

theorem hasKey_map_set (r : Record) (k : String) (v : JSON) :
    hasKey (r.map (fun p => bif p.1 == k then (k, v) else p)) k
      = hasKey r k := by
  induction r with
  | nil => rfl
  | cons p rs ih =>
    by_cases hp : p.1 = k
    · have h1 : (p.1 == k) = true := beq_iff_eq.mpr hp
      simp [hasKey, h1]
    · have h1 : (p.1 == k) = false := beq_eq_false_iff_ne.mpr hp
      simp only [List.map_cons, h1, Bool.cond_false, hasKey, List.any_cons,
        Bool.false_or] at ih ⊢
      exact ih

theorem map_set_map_set (r : Record) (k : String) (a b : JSON) :
    (r.map (fun p => bif p.1 == k then (k, a) else p)).map
      (fun p => bif p.1 == k then (k, b) else p)
    = r.map (fun p => bif p.1 == k then (k, b) else p) := by
  rw [List.map_map]
  refine List.map_congr_left ?_
  intro p _
  by_cases hp : p.1 = k
  · have h1 : (p.1 == k) = true := beq_iff_eq.mpr hp
    simp [Function.comp, h1]
  · have h1 : (p.1 == k) = false := beq_eq_false_iff_ne.mpr hp
    simp [Function.comp, h1]

theorem dictSet_dictSet_self (r : Record) (k : String) (a b : JSON) :
    dictSet (dictSet r k a) k b = dictSet r k b := by
  by_cases h : hasKey r k = true
  · unfold dictSet
    rw [if_pos h, if_pos (by rw [hasKey_map_set]; exact h), if_pos h]
    exact map_set_map_set r k a b
  · have hf : hasKey r k = false := eq_false_of_ne_true h
    have happ : hasKey (r ++ [(k, a)]) k = true := by
      simp [hasKey, List.any_append]
    unfold dictSet
    rw [if_neg h, if_pos happ, if_neg h, List.map_append,
      map_set_of_no_key r k b hf]
    simp

/-- Shape of the request list produced by the pagination loop: every
request after the ones already issued re-uses the same payload with only
the `page` entry advanced one step at a time from its current value. -/
theorem paginateLoop_reqs (fetch : Payload → Except Unit (List Record)) :
    ∀ (fuel : Nat) (fp : Payload) (resp acc : List Record)
      (reqs R : List Payload) (A : List Record) (j : Int),
      dictGet fp "page" = some (JSON.num j) →
      paginateLoop fetch fuel fp resp acc reqs = some (.ok (R, A)) →
      ∃ m : Nat, R = reqs ++ (List.range m).map
        (fun t : Nat => dictSet fp "page" (JSON.num (j + 1 + (t : Int)))) := by
  intro fuel
  induction fuel with
  | zero =>
    intro fp resp acc reqs R A j _ h
    exact Option.noConfusion h
  | succ fuel ih =>
    intro fp resp acc reqs R A j hj h
    rw [paginateLoop] at h
    by_cases hlen : resp.length = 100
    · rw [if_pos hlen] at h
      simp only [hj] at h
      cases hf : fetch (dictSet fp "page" (JSON.num (j + 1))) with
      | error e =>
        simp only [hf] at h
        injection h with h2
        exact Except.noConfusion h2
      | ok resp2 =>
        simp only [hf] at h
        have hj2 : dictGet (dictSet fp "page" (JSON.num (j + 1))) "page"
            = some (JSON.num (j + 1)) := dictGet_dictSet_self fp "page" _
        obtain ⟨m, hm⟩ := ih _ resp2 _ _ R A (j + 1) hj2 h
        refine ⟨m + 1, ?_⟩
        rw [hm, List.append_assoc, List.singleton_append,
          List.range_succ_eq_map, List.map_cons, List.map_map]
        congr 1
        congr 1
        · have h0 : ((0 : Nat) : Int) = 0 := rfl
          rw [h0, add_zero]
        · refine List.map_congr_left ?_
          intro t _
          simp only [Function.comp]
          rw [dictSet_dictSet_self]
          have harg : (j + 1 + 1 + (t : Int))
              = (j + 1 + ((t + 1 : Nat) : Int)) := by
            push_cast
            ring
          rw [harg]
    · rw [if_neg hlen] at h
      injection h with h2
      injection h2 with h3
      injection h3 with hR hA
      subst hR
      exact ⟨0, by simp⟩

/-- Counterexample to C4: a caller payload containing `page` overrides
the driver's `page` parameter — the single request issued carries
`page = 7`, not the driver-owned starting value 1. -/
theorem github_C4_counterexample :
    paginate_data "commits" [("page", JSON.num 7)] (fun _ => .ok []) 1
      = some (.ok ([[("per_page", JSON.num 100), ("page", JSON.num 7)]], []))
    ∧ dictGet [("per_page", JSON.num 100), ("page", JSON.num 7)] "page"
        = some (JSON.num 7)
    ∧ ¬ (dictGet [("per_page", JSON.num 100), ("page", JSON.num 7)] "page"
        = some (JSON.num 1)) := by
  refine ⟨rfl, rfl, ?_⟩
  intro hc
  have h7 : dictGet [("per_page", JSON.num 100), ("page", JSON.num 7)] "page"
      = some (JSON.num 7) := rfl
  rw [h7] at hc
  injection hc with h2
  injection h2 with h3
  norm_num at h3

/-- C4 (amended): every page request's query parameters include
`per_page` (the caller's override if any, 100 otherwise) and `page`; the
extra parameters are merged on top of both defaults and may override
either one.  When the caller does not supply `page`, the driver owns it:
the i-th request (0-based) carries `page = i + 1`, starting at 1. -/
theorem github_C4_amended_page_starts_at_1 (gobj : String)
    (payload : Payload) (fetch : Payload → Except Unit (List Record))
    (fuel : Nat) (R : List Payload) (O : List Record)
    (hp : hasKey payload "page" = false)
    (h : paginate_data gobj payload fetch fuel = some (.ok (R, O))) :
    (∀ (i : Nat) (hi : i < R.length),
        dictGet (R.get ⟨i, hi⟩) "page" = some (JSON.num ((i : Int) + 1))
        ∧ dictGet (R.get ⟨i, hi⟩) "per_page"
            = dictGet (buildPayload payload) "per_page")
    ∧ (hasKey payload "per_page" = false →
        dictGet (buildPayload payload) "per_page" = some (JSON.num 100)) := by
  refine ⟨?_, fun hpp => buildPayload_per_page payload hpp⟩
  unfold paginate_data at h
  cases hf : fetch (buildPayload payload) with
  | error e =>
    simp only [hf] at h
    injection h with h2
    exact Except.noConfusion h2
  | ok response =>
    simp only [hf] at h
    cases hl : paginateLoop fetch fuel (buildPayload payload) response
        response [buildPayload payload] with
    | none =>
      simp only [hl] at h
      exact Option.noConfusion h
    | some res =>
      cases res with
      | error e =>
        simp only [hl] at h
        injection h with h2
        exact Except.noConfusion h2
      | ok pr =>
        obtain ⟨reqs0, out⟩ := pr
        simp only [hl] at h
        cases hmf : mapFilter gobj out with
        | error e =>
          simp only [hmf] at h
          injection h with h2
          exact Except.noConfusion h2
        | ok filtered =>
          simp only [hmf] at h
          injection h with h2
          injection h2 with h3
          injection h3 with hR hO
          subst hR
          obtain ⟨m, hm⟩ := paginateLoop_reqs fetch fuel (buildPayload payload)
            response response [buildPayload payload] reqs0 out 1
            (buildPayload_page payload hp) hl
          have hm2 : reqs0 = buildPayload payload ::
              (List.range m).map (fun t : Nat =>
                dictSet (buildPayload payload) "page"
                  (JSON.num (1 + 1 + (t : Int)))) := by
            rw [hm]
            rfl
          subst hm2
          intro i hi
          cases i with
          | zero =>
            exact ⟨buildPayload_page payload hp, rfl⟩
          | succ t =>
            have ht : t < m := by
              simpa using hi
            simp only [List.get_eq_getElem, List.getElem_cons_succ,
              List.getElem_map, List.getElem_range]
            constructor
            · rw [dictGet_dictSet_self]
              have harg : (1 + 1 + (t : Int)) = ((t + 1 : Nat) : Int) + 1 := by
                push_cast
                ring
              rw [harg]
            · exact dictGet_dictSet_ne _ _ _ _ (by decide)

/-- Witness for C4 (amended): an empty caller payload produces a single
request with `per_page = 100` and `page = 1`. -/
theorem github_C4_witness :
    (∀ (i : Nat)
        (hi : i <
          ([[("per_page", JSON.num 100), ("page", JSON.num 1)]] :
            List Payload).length),
        dictGet (([[("per_page", JSON.num 100), ("page", JSON.num 1)]] :
            List Payload).get ⟨i, hi⟩) "page"
          = some (JSON.num ((i : Int) + 1))
        ∧ dictGet (([[("per_page", JSON.num 100), ("page", JSON.num 1)]] :
            List Payload).get ⟨i, hi⟩) "per_page"
          = dictGet (buildPayload []) "per_page")
    ∧ (hasKey ([] : Payload) "per_page" = false →
        dictGet (buildPayload []) "per_page" = some (JSON.num 100)) :=
  github_C4_amended_page_starts_at_1 "commits" [] (fun _ => .ok []) 1
    [[("per_page", JSON.num 100), ("page", JSON.num 1)]] [] rfl rfl

/-- C6: when the (lowercased, per the source's validation) entity kind is
outside the supported set, construction raises before anything else can
happen; the constructor has no access to the fetch capability, so zero
network calls are made. -/
theorem github_C6_unsupported_object_rejected
    (github_conn_id github_org github_object : String)
    (dest_conn_id bucket key destination : String) (github_repo : RepoSpec)
    (payload : Payload)
    (h : supportedObjects.contains (pyLower github_object) = false) :
    githubOperatorInit github_conn_id github_org github_object dest_conn_id
      bucket key destination github_repo payload = .error () := by
  unfold githubOperatorInit
  rw [if_neg]
  rw [h]
  exact Bool.false_ne_true

/-- Witness for C6: the unsupported kind "foo" is rejected at
construction. -/
theorem github_C6_witness :
    githubOperatorInit "c" "o" "foo" "d" "b" "k" "s3" RepoSpec.rnone []
      = .error () :=
  github_C6_unsupported_object_rejected "c" "o" "foo" "d" "b" "k" "s3"
    RepoSpec.rnone [] rfl

/-- When the constructor's lowercasing changed the spelling, neither the
repo-insensitive tuple in `execute` nor the endpoint table in
`methodMapper` can match the stored `github_object`. -/
theorem methodMapper_none_of_case_mismatch (selfOrg : String) (s : String)
    (org repo : Option String) (hcase : pyLower s ≠ s) :
    methodMapper selfOrg s org repo = none := by
  have h1 : s ≠ "commits" :=
    fun h => hcase (by subst h; decide)
  have h2 : s ≠ "commit_comments" :=
    fun h => hcase (by subst h; decide)
  have h3 : s ≠ "issue_comments" :=
    fun h => hcase (by subst h; decide)
  have h4 : s ≠ "issues" :=
    fun h => hcase (by subst h; decide)
  have h5 : s ≠ "members" :=
    fun h => hcase (by subst h; decide)
  have h6 : s ≠ "organizations" :=
    fun h => hcase (by subst h; decide)
  have h7 : s ≠ "pull_requests" :=
    fun h => hcase (by subst h; decide)
  have h8 : s ≠ "repositories" :=
    fun h => hcase (by subst h; decide)
  simp [methodMapper, methodMapping, List.lookup,
    beq_eq_false_iff_ne.mpr h1, beq_eq_false_iff_ne.mpr h2,
    beq_eq_false_iff_ne.mpr h3, beq_eq_false_iff_ne.mpr h4,
    beq_eq_false_iff_ne.mpr h5, beq_eq_false_iff_ne.mpr h6,
    beq_eq_false_iff_ne.mpr h7, beq_eq_false_iff_ne.mpr h8]

/-- When endpoint resolution always fails with a `KeyError`, every unit
of the per-repository loop contributes the caught empty result. -/
theorem runRepos_method_none (gobj selfOrg : String) (payload : Payload)
    (fetch : String → Payload → Except Unit (List Record)) (fuel : Nat)
    (hmm : ∀ repo, methodMapper selfOrg gobj (some selfOrg) repo = none) :
    ∀ ns : List String,
      runRepos gobj selfOrg payload fetch fuel ns = some [] := by
  intro ns
  induction ns with
  | nil => rfl
  | cons n rest ih =>
    rw [runRepos]
    have hr : retrieve_data gobj selfOrg (some n) payload fetch fuel
        = some [] := by
      unfold retrieve_data
      rw [hmm (some n)]
    rw [hr, ih]
    rfl

/-- C9: a supported entity kind spelled with an uppercase letter passes
construction (validation lowercases), but the case-sensitive endpoint
table raises a `KeyError`, which the unit-level bare `except` converts
into an empty unit result; the run completes with empty output instead of
failing. -/
theorem github_C9_case_mismatch_yields_empty_run (s org : String)
    (grepo : RepoSpec) (payload : Payload)
    (fetch : String → Payload → Except Unit (List Record)) (fuel : Nat)
    (conn dest bucket key destination : String)
    (hvalid : supportedObjects.contains (pyLower s) = true)
    (hcase : pyLower s ≠ s)
    (hall : grepo ≠ RepoSpec.rstr "all") :
    githubOperatorInit conn org s dest bucket key destination grepo payload
      = .ok ⟨conn, org, grepo, s, payload, destination, dest, bucket, key⟩
    ∧ methodMapper org s (some org) (repoAsOpt grepo) = none
    ∧ execute s org grepo payload fetch fuel = some (.ok []) := by
  refine ⟨?_, methodMapper_none_of_case_mismatch org s _ _ hcase, ?_⟩
  · unfold githubOperatorInit
    rw [if_pos hvalid]
  · have hnot3 : (["members", "organizations", "repositories"].contains s)
        = false := by
      have hm : s ≠ "members" := fun h => hcase (by subst h; decide)
      have ho : s ≠ "organizations" := fun h => hcase (by subst h; decide)
      have hp : s ≠ "repositories" := fun h => hcase (by subst h; decide)
      simp [hm, ho, hp]
    cases grepo with
    | rnone =>
      unfold execute
      rw [if_pos hnot3]
      have hr : retrieve_data s org none payload fetch fuel = some [] := by
        unfold retrieve_data
        rw [methodMapper_none_of_case_mismatch org s _ _ hcase]
      simp only [hr]
    | rstr r =>
      have hrall : (r == "all") = false := by
        refine beq_eq_false_iff_ne.mpr ?_
        intro hr
        subst hr
        exact hall rfl
      unfold execute
      rw [if_pos hnot3]
      simp only [hrall, Bool.false_eq_true, if_false]
      have hr : retrieve_data s org (some r) payload fetch fuel = some [] := by
        unfold retrieve_data
        rw [methodMapper_none_of_case_mismatch org s _ _ hcase]
      simp only [hr]
    | rlist names =>
      unfold execute
      rw [if_pos hnot3]
      simp only [runRepos_method_none s org payload fetch fuel
        (fun repo => methodMapper_none_of_case_mismatch org s _ _ hcase)
        names]

/-- Witness for C9: running the operator with `github_object = "Commits"`
passes construction and completes with empty output for every fetch
capability, here a concrete one. -/
theorem github_C9_witness :
    githubOperatorInit "c" "o" "Commits" "d" "b" "k" "s3" (RepoSpec.rstr "r")
        []
      = .ok ⟨"c", "o", RepoSpec.rstr "r", "Commits", [], "s3", "d", "b", "k"⟩
    ∧ methodMapper "o" "Commits" (some "o") (repoAsOpt (RepoSpec.rstr "r"))
        = none
    ∧ execute "Commits" "o" (RepoSpec.rstr "r") []
        (fun _ _ => .ok [[("sha", JSON.num 1)]]) 1 = some (.ok []) :=
  github_C9_case_mismatch_yields_empty_run "Commits" "o" (RepoSpec.rstr "r")
    [] (fun _ _ => .ok [[("sha", JSON.num 1)]]) 1 "c" "d" "b" "k" "s3"
    (by decide) (by decide)
    (by
      intro h
      injection h with h2
      exact absurd h2 (by decide))

/-- C10: with `repository = "all"`, the preliminary repository listing
runs outside the unit-level `try/except`; a transport failure there
propagates and aborts the whole run. -/
theorem github_C10_all_listing_failure_aborts (gobj org : String)
    (payload : Payload)
    (fetch : String → Payload → Except Unit (List Record)) (fuel : Nat)
    (hobj : (["members", "organizations", "repositories"].contains gobj)
      = false)
    (hfail : fetch ("orgs/" ++ org ++ "/repos") (buildPayload payload)
      = .error ()) :
    execute gobj org (RepoSpec.rstr "all") payload fetch fuel
      = some (.error ()) := by
  have hm : (methodMapper org "repositories" none none).getD ""
      = "orgs/" ++ org ++ "/repos" := rfl
  have hp : paginate_data gobj payload
      (fetch ("orgs/" ++ org ++ "/repos")) fuel = some (.error ()) := by
    unfold paginate_data
    simp only [hfail]
  unfold execute
  rw [if_pos hobj]
  simp only [beq_self_eq_true, if_true, hm, hp]

/-- Witness for C10: a fetch capability that fails on the repository
listing makes the whole `"all"` run abort. -/
theorem github_C10_witness :
    execute "commits" "o" (RepoSpec.rstr "all") [] (fun _ _ => .error ()) 0
      = some (.error ()) :=
  github_C10_all_listing_failure_aborts "commits" "o" []
    (fun _ _ => .error ()) 0 rfl rfl

/-- Records whose only key is `name` are untouched by every filter rule
(no rule filters a `name` field). -/
theorem filterMapper_name_only (gobj : String) (v : JSON) :
    filterMapper gobj [("name", v)] = .ok [("name", v)] := by
  simp [filterMapper, processAux, processRule, hasKey, filterMapping]

theorem mapFilter_name_pair (gobj : String) (r1 r2 : String) :
    mapFilter gobj [[("name", JSON.str r1)], [("name", JSON.str r2)]]
      = .ok [[("name", JSON.str r1)], [("name", JSON.str r2)]] := by
  simp [mapFilter, filterMapper_name_only]

/-! ### C7: per-page filtering refinement -/

theorem mapFilter_append (gobj : String) :
    ∀ (a b fa fb : List Record),
      mapFilter gobj a = .ok fa → mapFilter gobj b = .ok fb →
      mapFilter gobj (a ++ b) = .ok (fa ++ fb) := by
  intro a
  induction a with
  | nil =>
    intro b fa fb ha hb
    injection ha with ha2
    subst ha2
    simpa using hb
  | cons r rs ih =>
    intro b fa fb ha hb
    rw [List.cons_append]
    cases hfm : filterMapper gobj r with
    | error e =>
      rw [mapFilter] at ha
      simp only [hfm] at ha
      exact Except.noConfusion ha
    | ok fr =>
      rw [mapFilter] at ha
      simp only [hfm] at ha
      cases hrs : mapFilter gobj rs with
      | error e =>
        simp only [hrs] at ha
        exact Except.noConfusion ha
      | ok frs =>
        simp only [hrs] at ha
        injection ha with ha2
        subst ha2
        rw [mapFilter]
        simp only [hfm, ih b frs fb hrs hb]
        rw [List.cons_append]

theorem mapFilter_append_inv (gobj : String) :
    ∀ (a b c : List Record), mapFilter gobj (a ++ b) = .ok c →
      ∃ fa fb, mapFilter gobj a = .ok fa ∧ mapFilter gobj b = .ok fb
        ∧ c = fa ++ fb := by
  intro a
  induction a with
  | nil =>
    intro b c h
    exact ⟨[], c, rfl, by simpa using h, by simp⟩
  | cons r rs ih =>
    intro b c h
    rw [List.cons_append, mapFilter] at h
    cases hfm : filterMapper gobj r with
    | error e =>
      simp only [hfm] at h
      exact Except.noConfusion h
    | ok fr =>
      simp only [hfm] at h
      cases hrsb : mapFilter gobj (rs ++ b) with
      | error e =>
        simp only [hrsb] at h
        exact Except.noConfusion h
      | ok rest =>
        simp only [hrsb] at h
        injection h with h2
        subst h2
        obtain ⟨fa, fb, hfa, hfb, hrest⟩ := ih b rest hrsb
        refine ⟨fr :: fa, fb, ?_, hfb, by rw [hrest]; rfl⟩
        rw [mapFilter]
        simp only [hfm, hfa]

theorem paginateLoop_acc_prefix (fetch : Payload → Except Unit (List Record)) :
    ∀ (fuel : Nat) (fp : Payload) (resp acc : List Record)
      (reqs R : List Payload) (A : List Record),
      paginateLoop fetch fuel fp resp acc reqs = some (.ok (R, A)) →
      ∃ rest, A = acc ++ rest := by
  intro fuel
  induction fuel with
  | zero =>
    intro fp resp acc reqs R A h
    exact Option.noConfusion h
  | succ fuel ih =>
    intro fp resp acc reqs R A h
    rw [paginateLoop] at h
    by_cases hlen : resp.length = 100
    · rw [if_pos hlen] at h
      cases hpg : dictGet fp "page" with
      | none =>
        simp only [hpg] at h
        injection h with h2
        exact Except.noConfusion h2
      | some v =>
        cases v with
        | num k =>
          simp only [hpg] at h
          cases hf : fetch (dictSet fp "page" (JSON.num (k + 1))) with
          | error e =>
            simp only [hf] at h
            injection h with h2
            exact Except.noConfusion h2
          | ok resp2 =>
            simp only [hf] at h
            obtain ⟨rest, hrest⟩ := ih _ resp2 _ _ R A h
            exact ⟨resp2 ++ rest, by rw [hrest, List.append_assoc]⟩
        | null =>
          simp only [hpg] at h
          injection h with h2
          exact Except.noConfusion h2
        | bool b =>
          simp only [hpg] at h
          injection h with h2
          exact Except.noConfusion h2
        | str s =>
          simp only [hpg] at h
          injection h with h2
          exact Except.noConfusion h2
        | arr xs =>
          simp only [hpg] at h
          injection h with h2
          exact Except.noConfusion h2
        | obj fs =>
          simp only [hpg] at h
          injection h with h2
          exact Except.noConfusion h2
    · rw [if_neg hlen] at h
      injection h with h2
      injection h2 with h3
      injection h3 with hR hA
      exact ⟨[], by rw [← hA, List.append_nil]⟩

/-- The spec's per-page formulation of the pagination loop (§4.2: "each
accumulated record is passed through RecordNormalizer's filter step …
normalization of filtering happens per-page, not only at the end"): the
raw page still drives the length test while only filtered records are
accumulated.  This definition follows the specification's words; the
code's formulation is `paginateLoop` plus a final `mapFilter`. -/
def paginatePerPageLoop (gobj : String)
    (fetch : Payload → Except Unit (List Record)) :
    Nat → Payload → List Record → List Record → List Payload →
    Option (Except Unit (List Payload × List Record))
  | 0, _, _, _, _ => none
  | fuel + 1, fp, response, facc, reqs =>
    if response.length = 100 then
      match dictGet fp "page" with
      | some (.num k) =>
        let fp' := dictSet fp "page" (JSON.num (k + 1))
        match fetch fp' with
        | .error e => some (.error e)
        | .ok resp' =>
          match mapFilter gobj resp' with
          | .error e => some (.error e)
          | .ok fresp' =>
            paginatePerPageLoop gobj fetch fuel fp' resp' (facc ++ fresp')
              (reqs ++ [fp'])
      | _ => some (.error ())
    else some (.ok (reqs, facc))

/-- The spec's per-page formulation of `paginate_data` (filter each page
as it is fetched). -/
def paginate_data_perPage (github_object : String) (payload : Payload)
    (fetch : Payload → Except Unit (List Record)) (fuel : Nat) :
    Option (Except Unit (List Payload × List Record)) :=
  let fp := buildPayload payload
  match fetch fp with
  | .error e => some (.error e)
  | .ok response =>
    match mapFilter github_object response with
    | .error e => some (.error e)
    | .ok fresp =>
      paginatePerPageLoop github_object fetch fuel fp response fresp [fp]

theorem perPage_loop_iff (gobj : String)
    (fetch : Payload → Except Unit (List Record)) :
    ∀ (fuel : Nat) (fp : Payload) (resp acc facc : List Record)
      (reqs R : List Payload) (O : List Record),
      mapFilter gobj acc = .ok facc →
      ((∃ A, paginateLoop fetch fuel fp resp acc reqs = some (.ok (R, A))
          ∧ mapFilter gobj A = .ok O)
        ↔ paginatePerPageLoop gobj fetch fuel fp resp facc reqs
            = some (.ok (R, O))) := by
  intro fuel
  induction fuel with
  | zero =>
    intro fp resp acc facc reqs R O hacc
    constructor
    · rintro ⟨A, hA, _⟩
      exact Option.noConfusion hA
    · intro h
      exact Option.noConfusion h
  | succ fuel ih =>
    intro fp resp acc facc reqs R O hacc
    rw [paginateLoop, paginatePerPageLoop]
    by_cases hlen : resp.length = 100
    · rw [if_pos hlen, if_pos hlen]
      cases hpg : dictGet fp "page" with
      | none =>
        simp only [hpg]
        constructor
        · rintro ⟨A, hA, _⟩
          injection hA with h2
          exact Except.noConfusion h2
        · intro h
          injection h with h2
          exact Except.noConfusion h2
      | some v =>
        cases v with
        | num k =>
          simp only [hpg]
          cases hf : fetch (dictSet fp "page" (JSON.num (k + 1))) with
          | error e =>
            simp only [hf]
            constructor
            · rintro ⟨A, hA, _⟩
              injection hA with h2
              exact Except.noConfusion h2
            · intro h
              injection h with h2
              exact Except.noConfusion h2
          | ok resp2 =>
            simp only [hf]
            cases hmf : mapFilter gobj resp2 with
            | error e =>
              simp only [hmf]
              constructor
              · rintro ⟨A, hA, hO⟩
                obtain ⟨rest, hrest⟩ := paginateLoop_acc_prefix fetch fuel
                  _ resp2 _ _ R A hA
                subst hrest
                obtain ⟨fa, fb, hfa, hfb, hab⟩ :=
                  mapFilter_append_inv gobj (acc ++ resp2) rest O hO
                obtain ⟨fa1, fa2, hfa1, hfa2, ha12⟩ :=
                  mapFilter_append_inv gobj acc resp2 fa hfa
                rw [hmf] at hfa2
                exact Except.noConfusion hfa2
              · intro h
                injection h with h2
                exact Except.noConfusion h2
            | ok fresp2 =>
              simp only [hmf]
              exact ih _ resp2 (acc ++ resp2) (facc ++ fresp2)
                (reqs ++ [dictSet fp "page" (JSON.num (k + 1))]) R O
                (mapFilter_append gobj acc resp2 facc fresp2 hacc hmf)
        | null =>
          simp only [hpg]
          constructor
          · rintro ⟨A, hA, _⟩
            injection hA with h2
            exact Except.noConfusion h2
          · intro h
            injection h with h2
            exact Except.noConfusion h2
        | bool b =>
          simp only [hpg]
          constructor
          · rintro ⟨A, hA, _⟩
            injection hA with h2
            exact Except.noConfusion h2
          · intro h
            injection h with h2
            exact Except.noConfusion h2
        | str s =>
          simp only [hpg]
          constructor
          · rintro ⟨A, hA, _⟩
            injection hA with h2
            exact Except.noConfusion h2
          · intro h
            injection h with h2
            exact Except.noConfusion h2
        | arr xs =>
          simp only [hpg]
          constructor
          · rintro ⟨A, hA, _⟩
            injection hA with h2
            exact Except.noConfusion h2
          · intro h
            injection h with h2
            exact Except.noConfusion h2
        | obj fs =>
          simp only [hpg]
          constructor
          · rintro ⟨A, hA, _⟩
            injection hA with h2
            exact Except.noConfusion h2
          · intro h
            injection h with h2
            exact Except.noConfusion h2
    · rw [if_neg hlen, if_neg hlen]
      constructor
      · rintro ⟨A, hA, hO⟩
        injection hA with h2
        injection h2 with h3
        injection h3 with hR hA2
        subst hR
        subst hA2
        rw [hacc] at hO
        injection hO with h4
        rw [h4]
      · intro h
        injection h with h2
        injection h2 with h3
        injection h3 with hR hO
        subst hR
        subst hO
        exact ⟨acc, rfl, hacc⟩

/-- C7: the spec's per-page-filtering formulation and the code's
formulation (filter the whole accumulator after the loop) return equal
outputs: for every fetch capability the two produce the same successful
(requests, records) results. -/
theorem github_C7_per_page_filtering_equivalent (gobj : String)
    (payload : Payload) (fetch : Payload → Except Unit (List Record))
    (fuel : Nat) (R : List Payload) (O : List Record) :
    paginate_data gobj payload fetch fuel = some (.ok (R, O))
      ↔ paginate_data_perPage gobj payload fetch fuel = some (.ok (R, O)) := by
  unfold paginate_data paginate_data_perPage
  cases hf : fetch (buildPayload payload) with
  | error e =>
    simp only [hf]
  | ok response =>
    simp only [hf]
    cases hmf : mapFilter gobj response with
    | error e =>
      simp only [hmf]
      constructor
      · intro h
        cases hl : paginateLoop fetch fuel (buildPayload payload) response
            response [buildPayload payload] with
        | none =>
          simp only [hl] at h
          exact Option.noConfusion h
        | some res =>
          cases res with
          | error e2 =>
            simp only [hl] at h
            injection h with h2
            exact Except.noConfusion h2
          | ok pr =>
            obtain ⟨reqs0, out⟩ := pr
            simp only [hl] at h
            cases hmo : mapFilter gobj out with
            | error e2 =>
              simp only [hmo] at h
              injection h with h2
              exact Except.noConfusion h2
            | ok filtered =>
              obtain ⟨rest, hrest⟩ := paginateLoop_acc_prefix fetch fuel
                _ response _ _ reqs0 out hl
              subst hrest
              obtain ⟨fa, fb, hfa, hfb, hab⟩ :=
                mapFilter_append_inv gobj response rest filtered hmo
              rw [hmf] at hfa
              exact Except.noConfusion hfa
      · intro h
        injection h with h2
        exact Except.noConfusion h2
    | ok fresp =>
      simp only [hmf]
      have hiff := perPage_loop_iff gobj fetch fuel (buildPayload payload)
        response response fresp [buildPayload payload] R O hmf
      constructor
      · intro h
        cases hl : paginateLoop fetch fuel (buildPayload payload) response
            response [buildPayload payload] with
        | none =>
          simp only [hl] at h
          exact Option.noConfusion h
        | some res =>
          cases res with
          | error e2 =>
            simp only [hl] at h
            injection h with h2
            exact Except.noConfusion h2
          | ok pr =>
            obtain ⟨reqs0, out⟩ := pr
            simp only [hl] at h
            cases hmo : mapFilter gobj out with
            | error e2 =>
              simp only [hmo] at h
              injection h with h2
              exact Except.noConfusion h2
            | ok filtered =>
              simp only [hmo] at h
              injection h with h2
              injection h2 with h3
              injection h3 with hR hO
              subst hR
              subst hO
              exact hiff.mp ⟨out, hl, hmo⟩
      · intro h
        obtain ⟨A, hl, hO⟩ := hiff.mpr h
        simp only [hl, hO]

/-- Witness for C7: on a one-page backend the per-page formulation
returns exactly what the code's formulation computes — the single
filtered page. -/
theorem github_C7_witness :
    paginate_data_perPage "commits" []
        (fun _ => Except.ok [[("author", JSON.obj [("id", JSON.num 7)])]]) 1
      = some (.ok ([[("per_page", JSON.num 100), ("page", JSON.num 1)]],
          [[("author_id", JSON.num 7)]])) :=
  (github_C7_per_page_filtering_equivalent "commits" []
    (fun _ => Except.ok [[("author", JSON.obj [("id", JSON.num 7)])]]) 1
    [[("per_page", JSON.num 100), ("page", JSON.num 1)]]
    [[("author_id", JSON.num 7)]]).mp rfl

/-! ### C5: unit-level failure isolation -/

/-- A scope unit whose first page request fails contributes the caught
empty result. -/
theorem retrieve_data_unit_empty (gobj org n ep : String)
    (payload : Payload)
    (fetch : String → Payload → Except Unit (List Record)) (fuel : Nat)
    (hep : methodMapper org gobj (some org) (some n) = some ep)
    (hfail : fetch ep (buildPayload payload) = .error ()) :
    retrieve_data gobj org (some n) payload fetch fuel = some [] := by
  have hpag : paginate_data gobj payload (fetch ep) fuel
      = some (.error ()) := by
    unfold paginate_data
    simp only [hfail]
  unfold retrieve_data
  simp only [hep, hpag]

/-- A scope unit whose endpoint resolution fails contributes the caught
empty result. -/
theorem retrieve_data_resolve_empty (gobj org n : String)
    (payload : Payload)
    (fetch : String → Payload → Except Unit (List Record)) (fuel : Nat)
    (hep : methodMapper org gobj (some org) (some n) = none) :
    retrieve_data gobj org (some n) payload fetch fuel = some [] := by
  unfold retrieve_data
  simp only [hep]

/-- The per-repository loop concatenates each unit's contribution in
unit order. -/
theorem runRepos_units (gobj org : String) (payload : Payload)
    (fetch : String → Payload → Except Unit (List Record)) (fuel : Nat)
    (result : String → List Record) :
    ∀ ns : List String,
      (∀ n ∈ ns, retrieve_data gobj org (some n) payload fetch fuel
        = some (result n)) →
      runRepos gobj org payload fetch fuel ns
        = some (ns.flatMap result) := by
  intro ns
  induction ns with
  | nil => intro _; rfl
  | cons n rest ih =>
    intro h
    rw [runRepos]
    simp only [h n (List.mem_cons_self _ _),
      ih (fun m hm => h m (List.mem_cons_of_mem _ hm))]
    rw [List.flatMap_cons]

/-- C5: for every sequence of scope units, a failure while resolving or
paginating one unit yields an empty contribution for that unit and
processing continues with the remaining units in order.  First conjunct:
an explicit-list expansion of any length, with any subset of units
failing (by endpoint `KeyError` or by transport error on their first
request) contributing `[]`, returns the units' contributions
concatenated in unit order and the run succeeds.  Second conjunct: the
same for a `repository = "all"` expansion over whatever repository names
the (successful, single-page) listing returns; in particular `[r1, r2]`
with `r1` failing yields all of `r2`'s records and zero records for
`r1`. -/
theorem github_C5_unit_failure_isolated :
    (∀ (gobj org : String) (payload : Payload)
       (fetch : String → Payload → Except Unit (List Record)) (fuel : Nat)
       (ns : List String) (result : String → List Record),
       (["members", "organizations", "repositories"].contains gobj)
         = false →
       (∀ n ∈ ns,
         (methodMapper org gobj (some org) (some n) = none ∧ result n = [])
         ∨ (∃ ep, methodMapper org gobj (some org) (some n) = some ep
              ∧ fetch ep (buildPayload payload) = .error ()
              ∧ result n = [])
         ∨ retrieve_data gobj org (some n) payload fetch fuel
             = some (result n)) →
       execute gobj org (RepoSpec.rlist ns) payload fetch fuel
         = some (.ok (ns.flatMap result)))
    ∧ (∀ (gobj org : String) (payload : Payload)
        (fetch : String → Payload → Except Unit (List Record)) (fuel : Nat)
        (repoPage frepoPage : List Record) (ns : List String)
        (result : String → List Record),
        (["members", "organizations", "repositories"].contains gobj)
          = false →
        1 ≤ fuel →
        fetch ("orgs/" ++ org ++ "/repos") (buildPayload payload)
          = .ok repoPage →
        ¬ (repoPage.length = 100) →
        mapFilter gobj repoPage = .ok frepoPage →
        mapNames frepoPage = some ns →
        (∀ n ∈ ns,
          (methodMapper org gobj (some org) (some n) = none ∧ result n = [])
          ∨ (∃ ep, methodMapper org gobj (some org) (some n) = some ep
               ∧ fetch ep (buildPayload payload) = .error ()
               ∧ result n = [])
          ∨ retrieve_data gobj org (some n) payload fetch fuel
              = some (result n)) →
        execute gobj org (RepoSpec.rstr "all") payload fetch fuel
          = some (.ok (ns.flatMap result))) := by
  constructor
  · intro gobj org payload fetch fuel ns result hobj hunit
    have hret : ∀ n ∈ ns,
        retrieve_data gobj org (some n) payload fetch fuel
          = some (result n) := by
      intro n hn
      rcases hunit n hn with ⟨hep, hres⟩ | ⟨ep, hep, hfail, hres⟩ | hok
      · rw [hres]
        exact retrieve_data_resolve_empty gobj org n payload fetch fuel hep
      · rw [hres]
        exact retrieve_data_unit_empty gobj org n ep payload fetch fuel
          hep hfail
      · exact hok
    unfold execute
    rw [if_pos hobj]
    simp only [runRepos_units gobj org payload fetch fuel result ns hret]
  · intro gobj org payload fetch fuel repoPage frepoPage ns result hobj
      hfuel hrepos hlen hfilterPage hnames hunit
    obtain ⟨f, rfl⟩ : ∃ f, fuel = f + 1 := ⟨fuel - 1, by omega⟩
    have hret : ∀ n ∈ ns,
        retrieve_data gobj org (some n) payload fetch (f + 1)
          = some (result n) := by
      intro n hn
      rcases hunit n hn with ⟨hep, hres⟩ | ⟨ep, hep, hfail, hres⟩ | hok
      · rw [hres]
        exact retrieve_data_resolve_empty gobj org n payload fetch (f + 1)
          hep
      · rw [hres]
        exact retrieve_data_unit_empty gobj org n ep payload fetch (f + 1)
          hep hfail
      · exact hok
    have hloop : paginateLoop (fetch ("orgs/" ++ org ++ "/repos")) (f + 1)
        (buildPayload payload) repoPage repoPage [buildPayload payload]
        = some (.ok ([buildPayload payload], repoPage)) := by
      rw [paginateLoop, if_neg hlen]
    have hlist : paginate_data gobj payload
        (fetch ("orgs/" ++ org ++ "/repos")) (f + 1)
        = some (.ok ([buildPayload payload], frepoPage)) := by
      unfold paginate_data
      simp only [hrepos, hloop, hfilterPage]
    have hmR : (methodMapper org "repositories" none none).getD ""
        = "orgs/" ++ org ++ "/repos" := rfl
    unfold execute
    rw [if_pos hobj]
    simp only [beq_self_eq_true, if_true, hmR, hlist, hnames,
      runRepos_units gobj org payload fetch (f + 1) result ns hret]

/-- Fetch capability for the first C5 witness conjunct: three
repositories, the middle one failing. -/
def c5fetchList : String → Payload → Except Unit (List Record) :=
  fun ep _ =>
    if ep = "repos/o/r1/commits" then .ok [[("sha", JSON.num 1)]]
    else if ep = "repos/o/r2/commits" then .error ()
    else if ep = "repos/o/r3/commits" then .ok [[("sha", JSON.num 3)]]
    else .ok []

/-- Per-unit contributions for the first C5 witness conjunct. -/
def c5resultList : String → List Record :=
  fun n =>
    if n = "r1" then [[("sha", JSON.num 1)]]
    else if n = "r3" then [[("sha", JSON.num 3)]]
    else []

/-- Fetch capability for the second C5 witness conjunct: the claim's own
example, `repository = "all"` over `[r1, r2]` with `r1` failing. -/
def c5fetchAll : String → Payload → Except Unit (List Record) :=
  fun ep _ =>
    if ep = "orgs/o/repos" then
      .ok [[("name", JSON.str "r1")], [("name", JSON.str "r2")]]
    else if ep = "repos/o/r1/commits" then .error ()
    else if ep = "repos/o/r2/commits" then .ok [[("sha", JSON.num 2)]]
    else .ok []

/-- Per-unit contributions for the second C5 witness conjunct. -/
def c5resultAll : String → List Record :=
  fun n => if n = "r2" then [[("sha", JSON.num 2)]] else []

/-- Witness for C5: a three-unit list expansion with the middle unit
failing returns the first and third units' records in order, and the
claim's `"all"` example over `[r1, r2]` with `r1` failing returns all of
`r2`'s records, zero for `r1`, and succeeds. -/
theorem github_C5_witness :
    execute "commits" "o" (RepoSpec.rlist ["r1", "r2", "r3"]) [] c5fetchList 1
      = some (.ok [[("sha", JSON.num 1)], [("sha", JSON.num 3)]])
    ∧ execute "commits" "o" (RepoSpec.rstr "all") [] c5fetchAll 1
      = some (.ok [[("sha", JSON.num 2)]]) := by
  constructor
  · have h := github_C5_unit_failure_isolated.1 "commits" "o" [] c5fetchList
      1 ["r1", "r2", "r3"] c5resultList rfl ?_
    · exact h
    · intro n hn
      fin_cases hn
      · exact Or.inr (Or.inr rfl)
      · exact Or.inr (Or.inl ⟨"repos/o/r2/commits", rfl, rfl, rfl⟩)
      · exact Or.inr (Or.inr rfl)
  · have h := github_C5_unit_failure_isolated.2 "commits" "o" [] c5fetchAll
      1 [[("name", JSON.str "r1")], [("name", JSON.str "r2")]]
      [[("name", JSON.str "r1")], [("name", JSON.str "r2")]]
      ["r1", "r2"] c5resultAll rfl (by omega) rfl (by decide) rfl rfl ?_
    · exact h
    · intro n hn
      fin_cases hn
      · exact Or.inr (Or.inl ⟨"repos/o/r1/commits", rfl, rfl, rfl⟩)
      · exact Or.inr (Or.inr rfl)
